import Mathlib

/-!
Shallow embedding of the core of the func_py repository: the tail-call
trampoline (src/tco.py) and the partial-application accumulator
(src/curry.py), together with theorems settling the specification claims.

Modelling conventions:
* Python machine values are abstracted by type parameters; positional
  argument tuples become lists, keyword dictionaries become association
  lists with decidable-equality keys in insertion order.
* The trampoline step function takes one abstract argument pack `A`
  standing for the pair of the positional tuple and the keyword dict
  that `TailCall` carries; the driver treats the pack opaquely, exactly
  as `inner` in src/tco.py passes `result.args` and `result.kwargs`
  straight back to `fn`.
* The unbounded `while` loop of `inner` is modelled by a fuel-indexed
  loop returning `Option`: `none` means the fuel bound was hit before
  the loop exited, `some v` means the loop exited returning `v`.
  The fuel counts invocations of the step function, so a result
  `some v` at fuel `k` is exactly the statement that the Python loop
  returns `v` after at most `k` calls to `fn`.
* A Python call expression `f(**a, **b)` raises TypeError when `a` and
  `b` share a key; `dictMerge` therefore returns `none` (the raised
  exception) on overlapping key sets and the concatenation otherwise.
-/

namespace Tco

/-- Thunk from src/tco.py: the tagged union of `TailCall` (dataclass
holding the argument pack for the next call, here abstracted as one
value of type `A`) and `Return` (dataclass holding `return_val`). -/
inductive Thunk (A R : Type) : Type where
  | TailCall (args : A) : Thunk A R
  | Return (return_val : R) : Thunk A R
deriving DecidableEq

/-- One iteration of the `while isinstance(result, TailCall)` loop body
of `inner` in src/tco.py: a `TailCall` is replaced by the result of
re-invoking `fn` on its argument pack; a `Return` is left untouched
because the loop guard fails on it. -/
def stepThunk {A R : Type} (fn : A → Thunk A R) : Thunk A R → Thunk A R
  | .Return v => .Return v
  | .TailCall a => fn a

/-- Fuel-indexed model of the `while` loop of `inner` in src/tco.py,
started on an already-computed first `result`.  On `Return` the loop
guard fails at once (whatever the fuel) and `return_val` is returned;
on `TailCall` one unit of fuel pays for one re-invocation of `fn`. -/
def tcoLoop {A R : Type} (fn : A → Thunk A R) : Nat → Thunk A R → Option R
  | _, .Return v => some v
  | 0, .TailCall _ => none
  | fuel + 1, .TailCall a => tcoLoop fn fuel (fn a)

/-- inner from src/tco.py lines 39-44: compute `result = fn(*args, **kwargs)`
once, then run the loop; the fuel bounds the number of loop iterations. -/
def inner {A R : Type} (fn : A → Thunk A R) (fuel : Nat) (args : A) : Option R :=
  tcoLoop fn fuel (fn args)

/-- tco from src/tco.py: the decorator simply returns `inner`. -/
def tco {A R : Type} (fn : A → Thunk A R) : Nat → A → Option R :=
  inner fn

/-- factorial step function from src/tco.py lines 51-56 (before the
decorator is applied): state is the positional pack `(n, acc)`, with
`acc` defaulting to 1 at the initial call site. -/
def factorial_step : Nat × Nat → Thunk (Nat × Nat) Nat
  | (0, acc) => .Return acc
  | (n + 1, acc) => .TailCall (n, (n + 1) * acc)

/-- fibonacci step function from src/tco.py lines 63-68 (before the
decorator is applied): state is the positional pack `(n, cur, nxt)`,
with `cur` and `nxt` defaulting to 1 at the initial call site. -/
def fibonacci_step : Nat × Nat × Nat → Thunk (Nat × Nat × Nat) Nat
  | (0, cur, _) => .Return cur
  | (n + 1, cur, nxt) => .TailCall (n, nxt, cur + nxt)

/-- Direct recursive definition of factorial, the reference the spec
compares the trampoline-driven version against. -/
def factRec : Nat → Nat
  | 0 => 1
  | n + 1 => (n + 1) * factRec n

/-- Direct recursive definition of the Fibonacci sequence with first two
terms 1, 1 (0-indexed), the reference of the spec. -/
def fibRec : Nat → Nat
  | 0 => 1
  | 1 => 1
  | n + 2 => fibRec n + fibRec (n + 1)

/-- Accumulator-style recurrence traced by the fibonacci step function:
`fibAux n cur nxt` is the value the trampoline returns from state
`(n, cur, nxt)`. -/
def fibAux : Nat → Nat → Nat → Nat
  | 0, cur, _ => cur
  | n + 1, cur, nxt => fibAux n nxt (cur + nxt)

/-- Step function used as a concrete witness input whose terminal value
is the none-like value `none`. -/
def stepNoneLike : Unit → Thunk Unit (Option Nat) :=
  fun _ => .Return none

/-- Step function used as a concrete witness input that makes exactly
one tail call before terminating. -/
def stepOnce : Nat → Thunk Nat Nat
  | 0 => .Return 7
  | _ + 1 => .TailCall 0

end Tco

namespace Tco

theorem tcoLoop_return {A R : Type} (fn : A → Thunk A R) (fuel : Nat) (v : R) :
    tcoLoop fn fuel (.Return v) = some v := by
  cases fuel <;> rfl

theorem iterate_return {A R : Type} (fn : A → Thunk A R) (k : Nat) (v : R) :
    (stepThunk fn)^[k] (.Return v) = .Return v := by
  induction k with
  | zero => rfl
  | succ k ih => rw [Function.iterate_succ_apply]; exact ih

theorem tcoLoop_of_iterate {A R : Type} (fn : A → Thunk A R) :
    ∀ (k fuel : Nat) (t : Thunk A R) (v : R),
      (stepThunk fn)^[k] t = .Return v → k ≤ fuel → tcoLoop fn fuel t = some v := by
  intro k
  induction k with
  | zero =>
    intro fuel t v h _
    simp only [Function.iterate_zero, id_eq] at h
    rw [h]
    exact tcoLoop_return fn fuel v
  | succ k ih =>
    intro fuel t v h hle
    rw [Function.iterate_succ_apply] at h
    cases t with
    | Return w =>
      have hw : stepThunk fn (.Return w) = (.Return w : Thunk A R) := rfl
      rw [hw, iterate_return] at h
      injection h with h
      rw [h]
      exact tcoLoop_return fn fuel v
    | TailCall a =>
      cases fuel with
      | zero => omega
      | succ fuel =>
        have hstep : tcoLoop fn (fuel + 1) (.TailCall a) = tcoLoop fn fuel (fn a) := rfl
        rw [hstep]
        have ha : stepThunk fn (.TailCall a) = fn a := rfl
        rw [ha] at h
        exact ih fuel (fn a) v h (by omega)

theorem iterate_of_tcoLoop {A R : Type} (fn : A → Thunk A R) :
    ∀ (fuel : Nat) (t : Thunk A R) (v : R),
      tcoLoop fn fuel t = some v → ∃ k, (stepThunk fn)^[k] t = .Return v := by
  intro fuel
  induction fuel with
  | zero =>
    intro t v h
    cases t with
    | Return w =>
      have hw : some w = some v := h
      cases hw
      exact ⟨0, rfl⟩
    | TailCall a => exact Option.noConfusion h
  | succ fuel ih =>
    intro t v h
    cases t with
    | Return w =>
      have hw : some w = some v := h
      cases hw
      exact ⟨0, rfl⟩
    | TailCall a =>
      have h2 : tcoLoop fn fuel (fn a) = some v := h
      obtain ⟨k, hk⟩ := ih (fn a) v h2
      refine ⟨k + 1, ?_⟩
      rw [Function.iterate_succ_apply]
      exact hk

theorem inner_factorial (n : Nat) : ∀ acc : Nat,
    inner factorial_step (n + 1) (n, acc) = some (factRec n * acc) := by
  induction n with
  | zero =>
    intro acc
    show some acc = some (factRec 0 * acc)
    rw [factRec, Nat.one_mul]
  | succ n ih =>
    intro acc
    show tcoLoop factorial_step (n + 1) (factorial_step (n, (n + 1) * acc)) =
      some (factRec (n + 1) * acc)
    rw [show tcoLoop factorial_step (n + 1) (factorial_step (n, (n + 1) * acc)) =
      inner factorial_step (n + 1) (n, (n + 1) * acc) from rfl, ih]
    congr 1
    rw [factRec]
    ring

theorem inner_fibonacci (n : Nat) : ∀ cur nxt : Nat,
    inner fibonacci_step (n + 1) (n, cur, nxt) = some (fibAux n cur nxt) := by
  induction n with
  | zero =>
    intro cur nxt
    rfl
  | succ n ih =>
    intro cur nxt
    show tcoLoop fibonacci_step (n + 1) (fibonacci_step (n, nxt, cur + nxt)) =
      some (fibAux (n + 1) cur nxt)
    rw [show tcoLoop fibonacci_step (n + 1) (fibonacci_step (n, nxt, cur + nxt)) =
      inner fibonacci_step (n + 1) (n, nxt, cur + nxt) from rfl, ih]
    rfl

theorem fibAux_fibRec (n : Nat) : ∀ k : Nat,
    fibAux n (fibRec k) (fibRec (k + 1)) = fibRec (k + n) := by
  induction n with
  | zero => intro k; rfl
  | succ n ih =>
    intro k
    show fibAux n (fibRec (k + 1)) (fibRec k + fibRec (k + 1)) = fibRec (k + (n + 1))
    rw [show fibRec k + fibRec (k + 1) = fibRec (k + 2) from (fibRec.eq_3 k).symm, ih (k + 1)]
    congr 1
    omega

end Tco

namespace Curry

/-- Keyword-argument dictionary: an association list from names (an
abstract type `K` with decidable equality, standing for Python
identifier strings) to values, kept in insertion order with unique
keys, as Python dicts are. -/
abbrev KW (K V : Type) : Type := List (K × V)

/-- Key set of a keyword dictionary. -/
def keys {K V : Type} (kw : KW K V) : List K :=
  kw.map Prod.fst

/-- Semantics of the Python call expression `dict(**a, **b)` used at
src/curry.py lines 99 and 179: when `a` and `b` share a key the call
raises TypeError (multiple values for a keyword argument), modelled as
`none`; otherwise the result is the union, `a` entries first. -/
def dictMerge {K V : Type} [DecidableEq K] (a b : KW K V) : Option (KW K V) :=
  if (keys b).any (fun k => (keys a).any (fun k2 => decide (k2 = k))) then
    none
  else
    some (a ++ b)

/-- Partial from src/curry.py lines 84-104: the object-based
accumulator, holding the threshold `num_args`, the wrapped target `fn`
(modelled as a total function from the accumulated positional list and
keyword dictionary to a result), and the arguments saved so far. -/
structure PartialApp (K V R : Type) : Type where
  num_args : Nat
  fn : List V → KW K V → R
  args : List V
  kwargs : KW K V

/-- Outcome of one accumulator call on the object representation:
either the final result of the target or a further `PartialApp`. -/
inductive PCallResult (K V R : Type) : Type where
  | done (r : R) : PCallResult K V R
  | cont (p : PartialApp K V R) : PCallResult K V R

/-- Partial.__call__ from src/curry.py lines 97-104: concatenate the
positional arguments, merge the keyword dictionaries (a raised
TypeError from the merge propagates as `none`), then compare the total
count with the threshold using the ordering of the source line 101,
`num_args >= self.num_args`. -/
def PartialApp.call {K V R : Type} [DecidableEq K] (self : PartialApp K V R)
    (more_args : List V) (more_kwargs : KW K V) : Option (PCallResult K V R) :=
  match dictMerge self.kwargs more_kwargs with
  | none => none
  | some all_kwargs =>
    if (self.args ++ more_args).length + all_kwargs.length ≥ self.num_args then
      some (.done (self.fn (self.args ++ more_args) all_kwargs))
    else
      some (.cont ⟨self.num_args, self.fn, self.args ++ more_args, all_kwargs⟩)

/-- curry from src/curry.py lines 7-81: the two-stage decorator
`curry(num_args)(fn)` collapsed into one application; the decorator
body (line 79) returns `Partial(num_args, fn)` with empty saved
arguments. -/
def curry {K V R : Type} (num_args : Nat) (fn : List V → KW K V → R) :
    PartialApp K V R :=
  ⟨num_args, fn, [], []⟩

/-- Outcome of one accumulator call on the closure representation of
src/curry.py lines 175-187: either the final result of the target, or
the closure returned by `init(*all_args, **all_kwargs)`, represented
by the environment `(all_args, all_kwargs)` that this closure captures
(the remaining captured variables `num_args` and `fn` are fixed by the
enclosing decorator and threaded separately). -/
inductive FCallResult (K V R : Type) : Type where
  | done (r : R) : FCallResult K V R
  | cont (args : List V) (kwargs : KW K V) : FCallResult K V R

/-- call from src/curry.py lines 177-183: the inner closure of
`curry_functional`, written as an explicit function of its captured
environment (`num_args` and `fn` from the decorator, `args` and
`kwargs` from `init`) and of the arguments of the present call. -/
def call {K V R : Type} [DecidableEq K] (num_args : Nat)
    (fn : List V → KW K V → R) (args : List V) (kwargs : KW K V)
    (more_args : List V) (more_kwargs : KW K V) : Option (FCallResult K V R) :=
  match dictMerge kwargs more_kwargs with
  | none => none
  | some all_kwargs =>
    if (args ++ more_args).length + all_kwargs.length ≥ num_args then
      some (.done (fn (args ++ more_args) all_kwargs))
    else
      some (.cont (args ++ more_args) all_kwargs)

/-- curry_functional from src/curry.py lines 110-189: the decorator
returns `init()`, the call closure whose captured environment is the
empty positional tuple and the empty keyword dictionary; the closure
itself is represented by that captured environment. -/
def curry_functional {K V R : Type} (num_args : Nat)
    (fn : List V → KW K V → R) : List V × KW K V :=
  ([], [])

/-- Feed a list of call argument packs, one call at a time, to an
object-based accumulator: stop with `none` when a call raises, with
`done r` when the threshold is crossed and the target returns `r`, and
return the accumulator itself once the packs are exhausted. -/
def runCallsP {K V R : Type} [DecidableEq K] (p : PartialApp K V R) :
    List (List V × KW K V) → Option (PCallResult K V R)
  | [] => some (.cont p)
  | (ma, mk) :: rest =>
    match p.call ma mk with
    | none => none
    | some (.done r) => some (.done r)
    | some (.cont q) => runCallsP q rest

/-- Feed a list of call argument packs, one call at a time, to a
closure-based accumulator given by its captured environment. -/
def runCallsF {K V R : Type} [DecidableEq K] (num_args : Nat)
    (fn : List V → KW K V → R) :
    List V → KW K V → List (List V × KW K V) → Option (FCallResult K V R)
  | args, kwargs, [] => some (.cont args kwargs)
  | args, kwargs, (ma, mk) :: rest =>
    match call num_args fn args kwargs ma mk with
    | none => none
    | some (.done r) => some (.done r)
    | some (.cont a2 k2) => runCallsF num_args fn a2 k2 rest

/-- Forget the representation of an object-based call outcome down to
the closure-based one: a further `PartialApp` is observed through the
positional and keyword arguments it holds. -/
def pToF {K V R : Type} : PCallResult K V R → FCallResult K V R
  | .done r => .done r
  | .cont p => .cont p.args p.kwargs

/-- add from the doctest of src/curry.py lines 18-20, as a function of
the accumulated argument lists: `add(a, b, c) = a + b + c` (the value
on argument lists of a different shape is irrelevant to the claims and
fixed to 0). -/
def addFn : List Nat → KW Nat Nat → Nat
  | [a, b, c], _ => a + b + c
  | _, _ => 0

/-- Generic target used for concrete accumulator states in witnesses
and counterexamples. -/
def gFn : List Nat → KW Nat Nat → Nat :=
  fun _ _ => 0

end Curry

/-- C1: the trampoline-wrapped callable invokes the step function `fn`;
when `fn` yields `Return` (the Done signal) the driver returns the
unwrapped `return_val`, whatever that value is (a none-like terminal
value is exercised in the witness at result type `Option Nat`); when
`fn` yields `TailCall` (the Continue signal) the driver re-invokes `fn`
with exactly the carried argument pack and repeats, spending one unit
of fuel per re-invocation; and every value the driver ever produces is
the unwrapped `return_val` of a `Return` thunk actually reached by
iterating `fn`, so the external caller never receives a signal. -/
theorem c1_trampoline_driver (A R : Type) (fn : A → Tco.Thunk A R) (a : A) :
    (∀ (v : R) (fuel : Nat), fn a = .Return v → Tco.tco fn fuel a = some v) ∧
    (∀ (a2 : A) (fuel : Nat), fn a = .TailCall a2 →
      Tco.tco fn (fuel + 1) a = Tco.tco fn fuel a2) ∧
    (∀ (fuel : Nat) (v : R), Tco.tco fn fuel a = some v →
      ∃ k, (Tco.stepThunk fn)^[k] (fn a) = .Return v) := by
  refine ⟨?_, ?_, ?_⟩
  · intro v fuel h
    show Tco.tcoLoop fn fuel (fn a) = some v
    rw [h]
    exact Tco.tcoLoop_return fn fuel v
  · intro a2 fuel h
    show Tco.tcoLoop fn (fuel + 1) (fn a) = Tco.tco fn fuel a2
    rw [h]
    rfl
  · intro fuel v h
    exact Tco.iterate_of_tcoLoop fn fuel (fn a) v h

/-- Witness for C1 at concrete inputs: a step function terminating at
once with the none-like value `none`, and a step function making one
tail call before terminating with 7. -/
theorem c1_trampoline_driver_witness :
    (Tco.stepNoneLike () = .Return none ∧
      Tco.tco Tco.stepNoneLike 0 () = some none) ∧
    (Tco.stepOnce 1 = .TailCall 0 ∧
      Tco.tco Tco.stepOnce 1 1 = Tco.tco Tco.stepOnce 0 0) ∧
    (Tco.tco Tco.stepOnce 1 1 = some 7 ∧
      ∃ k, (Tco.stepThunk Tco.stepOnce)^[k] (Tco.stepOnce 1) = .Return 7) :=
  ⟨⟨rfl, (c1_trampoline_driver Unit (Option Nat) Tco.stepNoneLike ()).1 none 0 rfl⟩,
   ⟨rfl, (c1_trampoline_driver Nat Nat Tco.stepOnce 1).2.1 0 0 rfl⟩,
   ⟨rfl, (c1_trampoline_driver Nat Nat Tco.stepOnce 1).2.2 1 7 rfl⟩⟩

/-- C5: for every step function whose chain of Continue signals is
finite — it reaches a `Return` after `k` re-invocations — the
trampoline terminates with the terminal value once given at least `k`
units of fuel, the fuel metering exactly the iterations of the
constant-size loop; in particular the factorial step function driven
from `(n, 1)` terminates after `n + 1` invocations with the correct
factorial for every `n`, including `n = 10000`, which requires more
than 10000 sequential steps. -/
theorem c5_stack_safe_termination :
    (∀ (A R : Type) (fn : A → Tco.Thunk A R) (a : A) (k fuel : Nat) (v : R),
        (Tco.stepThunk fn)^[k] (fn a) = .Return v → k ≤ fuel →
        Tco.tco fn fuel a = some v) ∧
    (∀ n acc : Nat,
        Tco.tco Tco.factorial_step (n + 1) (n, acc) = some (Tco.factRec n * acc)) ∧
    Tco.tco Tco.factorial_step 10001 (10000, 1) = some (Tco.factRec 10000) := by
  refine ⟨?_, ?_, ?_⟩
  · intro A R fn a k fuel v h hle
    exact Tco.tcoLoop_of_iterate fn k fuel (fn a) v h hle
  · intro n acc
    exact Tco.inner_factorial n acc
  · have h := Tco.inner_factorial 10000 1
    rw [Nat.mul_one] at h
    exact h

/-- Witness for C5 at a concrete input: the factorial step function
from `(2, 1)` reaches `Return 2` after 2 re-invocations, and the
trampoline with fuel 3 returns 2. -/
theorem c5_stack_safe_termination_witness :
    ((Tco.stepThunk Tco.factorial_step)^[2] (Tco.factorial_step (2, 1)) =
        .Return 2 ∧ 2 ≤ 3) ∧
    Tco.tco Tco.factorial_step 3 (2, 1) = some 2 :=
  ⟨⟨by decide, by decide⟩,
    c5_stack_safe_termination.1 (Nat × Nat) Nat Tco.factorial_step (2, 1) 2 3 2
      (by decide) (by decide)⟩

/-- C6: the trampoline-driven factorial step function agrees with the
direct recursive factorial for every `n` (so in particular for
0..10), and the trampoline-driven fibonacci step function agrees with
the direct recursive Fibonacci definition with first two terms 1, 1
for every `n`; concretely factorial of 5 is 120 and fibonacci of 9 is
55 on both sides. -/
theorem c6_factorial_fibonacci_values :
    (∀ n : Nat, Tco.tco Tco.factorial_step (n + 1) (n, 1) = some (Tco.factRec n)) ∧
    (∀ n : Nat, Tco.tco Tco.fibonacci_step (n + 1) (n, 1, 1) = some (Tco.fibRec n)) ∧
    Tco.tco Tco.factorial_step 6 (5, 1) = some 120 ∧
    Tco.tco Tco.fibonacci_step 10 (9, 1, 1) = some 55 ∧
    Tco.factRec 5 = 120 ∧ Tco.fibRec 9 = 55 := by
  refine ⟨?_, ?_, by decide, by decide, by decide, by decide⟩
  · intro n
    have h := Tco.inner_factorial n 1
    rw [Nat.mul_one] at h
    exact h
  · intro n
    have h := Tco.inner_fibonacci n 1 1
    have h2 := Tco.fibAux_fibRec n 0
    rw [show Tco.fibRec 0 = 1 from rfl, show Tco.fibRec 1 = 1 from rfl,
      Nat.zero_add] at h2
    rw [h2] at h
    exact h

namespace Curry

theorem call_object_closure {K V R : Type} [DecidableEq K] (self : PartialApp K V R)
    (ma : List V) (mk : KW K V) :
    (self.call ma mk).map pToF = call self.num_args self.fn self.args self.kwargs ma mk := by
  unfold PartialApp.call call
  cases dictMerge self.kwargs mk with
  | none => rfl
  | some allk =>
    dsimp only
    by_cases hth : (self.args ++ ma).length + allk.length ≥ self.num_args
    · rw [if_pos hth, if_pos hth]
      rfl
    · rw [if_neg hth, if_neg hth]
      rfl

theorem call_cont_state {K V R : Type} [DecidableEq K] (p : PartialApp K V R)
    (ma : List V) (mk : KW K V) (q : PartialApp K V R)
    (h : p.call ma mk = some (.cont q)) :
    q.num_args = p.num_args ∧ q.fn = p.fn ∧ q.args = p.args ++ ma ∧
      q.args.length + q.kwargs.length < q.num_args := by
  revert h
  unfold PartialApp.call
  cases dictMerge p.kwargs mk with
  | none => intro h; exact Option.noConfusion h
  | some allk =>
    dsimp only
    by_cases hth : (p.args ++ ma).length + allk.length ≥ p.num_args
    · rw [if_pos hth]
      intro h
      injection h with h2
      exact PCallResult.noConfusion h2
    · rw [if_neg hth]
      intro h
      injection h with h2
      injection h2 with h3
      rw [← h3]
      exact ⟨rfl, rfl, rfl, by show (p.args ++ ma).length + allk.length < p.num_args; omega⟩

theorem runCalls_object_closure {K V R : Type} [DecidableEq K] :
    ∀ (packs : List (List V × KW K V)) (p : PartialApp K V R),
      (runCallsP p packs).map pToF = runCallsF p.num_args p.fn p.args p.kwargs packs := by
  intro packs
  induction packs with
  | nil => intro p; rfl
  | cons pk rest ih =>
    intro p
    obtain ⟨ma, mk⟩ := pk
    have hstep := call_object_closure p ma mk
    simp only [runCallsP, runCallsF]
    cases hc : p.call ma mk with
    | none =>
      rw [hc] at hstep
      rw [← hstep]
      rfl
    | some res =>
      rw [hc] at hstep
      rw [← hstep]
      cases res with
      | done r => rfl
      | cont q =>
        obtain ⟨hN, hf, -, -⟩ := call_cont_state p ma mk q hc
        show (runCallsP q rest).map pToF = runCallsF p.num_args p.fn q.args q.kwargs rest
        rw [← hN, ← hf]
        exact ih q

end Curry

/-- C2: with threshold 3 and a target taking three positional
arguments, every grouping of the three arguments over successive calls
invokes the target on the same full argument list and yields the same
result; concretely, for `add(a, b, c) = a + b + c` all four groupings
of 1, 2, 3 return 6. -/
theorem c2_grouping_equivalence :
    (∀ (V R : Type) (fn : List V → Curry.KW Nat V → R) (a b c : V),
      Curry.runCallsP (Curry.curry 3 fn) [([a, b, c], [])] =
          some (.done (fn [a, b, c] [])) ∧
      Curry.runCallsP (Curry.curry 3 fn) [([a], []), ([b, c], [])] =
          some (.done (fn [a, b, c] [])) ∧
      Curry.runCallsP (Curry.curry 3 fn) [([a], []), ([b], []), ([c], [])] =
          some (.done (fn [a, b, c] [])) ∧
      Curry.runCallsP (Curry.curry 3 fn) [([a, b], []), ([c], [])] =
          some (.done (fn [a, b, c] []))) ∧
    Curry.runCallsP (Curry.curry 3 Curry.addFn) [([1, 2, 3], [])] = some (.done 6) ∧
    Curry.runCallsP (Curry.curry 3 Curry.addFn) [([1], []), ([2, 3], [])] =
      some (.done 6) ∧
    Curry.runCallsP (Curry.curry 3 Curry.addFn) [([1], []), ([2], []), ([3], [])] =
      some (.done 6) ∧
    Curry.runCallsP (Curry.curry 3 Curry.addFn) [([1, 2], []), ([3], [])] =
      some (.done 6) :=
  ⟨fun _ _ _ a b c => ⟨rfl, rfl, rfl, rfl⟩, rfl, rfl, rfl, rfl⟩

/-- C3: a call on an accumulator whose keyword merge succeeds returns a
further accumulator, and never invokes the target, whenever the
accumulated total (positional count plus named count) stays strictly
below the threshold; as soon as the total reaches the threshold or
more — the comparison of src/curry.py line 101 is `>=` — the target is
invoked once on the full accumulated argument set and its result is
returned. -/
theorem c3_threshold_semantics (V R : Type) (p : Curry.PartialApp Nat V R)
    (ma : List V) (mk allk : Curry.KW Nat V)
    (hm : Curry.dictMerge p.kwargs mk = some allk) :
    ((p.args ++ ma).length + allk.length < p.num_args →
      p.call ma mk = some (.cont ⟨p.num_args, p.fn, p.args ++ ma, allk⟩)) ∧
    ((p.args ++ ma).length + allk.length ≥ p.num_args →
      p.call ma mk = some (.done (p.fn (p.args ++ ma) allk))) := by
  constructor
  · intro h
    simp only [Curry.PartialApp.call, hm]
    rw [if_neg (by omega)]
  · intro h
    simp only [Curry.PartialApp.call, hm]
    rw [if_pos h]

/-- Witness for C3 at concrete inputs: one argument out of three keeps
accumulating; three arguments out of three trigger the target. -/
theorem c3_threshold_semantics_witness :
    (Curry.dictMerge ([] : Curry.KW Nat Nat) [] = some [] ∧
      ([1] : List Nat).length + 0 < 3 ∧
      Curry.PartialApp.call (Curry.curry 3 Curry.addFn) [1] [] =
        some (.cont ⟨3, Curry.addFn, [1], []⟩)) ∧
    (([1, 2, 3] : List Nat).length + 0 ≥ 3 ∧
      Curry.PartialApp.call ⟨3, Curry.addFn, [1, 2], []⟩ [3] [] =
        some (.done 6)) :=
  ⟨⟨rfl, by decide,
      (c3_threshold_semantics Nat Nat (Curry.curry 3 Curry.addFn) [1] [] [] rfl).1
        (by decide)⟩,
   ⟨by decide,
      (c3_threshold_semantics Nat Nat ⟨3, Curry.addFn, [1, 2], []⟩ [3] [] [] rfl).2
        (by decide)⟩⟩

/-- C4 counterexample: supplying the name 0 again in a later call does
not overwrite the earlier value; the merge
`dict(**self.kwargs, **more_kwargs)` of src/curry.py line 99 raises
TypeError on the duplicated name (modelled as `none`), so the chain
fails instead of producing an accumulator holding the later value. -/
theorem c4_counterexample :
    Curry.runCallsP (Curry.curry 3 Curry.gFn) [([], [(0, 1)]), ([], [(0, 2)])] = none ∧
    Curry.runCallsP (Curry.curry 3 Curry.gFn) [([], [(0, 1)]), ([], [(0, 2)])] ≠
      some (.cont ⟨3, Curry.gFn, [], [(0, 2)]⟩) := by
  refine ⟨rfl, ?_⟩
  intro h
  have h2 : (none : Option (Curry.PCallResult Nat Nat Nat)) =
      some (.cont ⟨3, Curry.gFn, [], [(0, 2)]⟩) := h
  exact Option.noConfusion h2

/-- C4 amended: named arguments merge by name only when the new names
are disjoint from the already-accumulated ones; a name supplied again
in a later call makes that call raise (TypeError from the duplicated
keyword, modelled as `none`) rather than overwriting, and when the
names are disjoint the target, when finally invoked, receives the
single value supplied for each name. -/
theorem c4_amended_duplicate_name_raises (V R : Type) (p : Curry.PartialApp Nat V R)
    (ma : List V) (mk : Curry.KW Nat V) :
    ((Curry.keys mk).any
        (fun k => (Curry.keys p.kwargs).any (fun k2 => decide (k2 = k))) = true →
      p.call ma mk = none) ∧
    ((Curry.keys mk).any
        (fun k => (Curry.keys p.kwargs).any (fun k2 => decide (k2 = k))) = false →
      Curry.dictMerge p.kwargs mk = some (p.kwargs ++ mk) ∧
      (p.num_args ≤ (p.args ++ ma).length + (p.kwargs ++ mk).length →
        p.call ma mk = some (.done (p.fn (p.args ++ ma) (p.kwargs ++ mk))))) := by
  constructor
  · intro h
    have hm : Curry.dictMerge p.kwargs mk = none := by
      unfold Curry.dictMerge
      rw [if_pos h]
    simp only [Curry.PartialApp.call, hm]
  · intro h
    have hm : Curry.dictMerge p.kwargs mk = some (p.kwargs ++ mk) := by
      unfold Curry.dictMerge
      rw [if_neg (by simp [h])]
    refine ⟨hm, fun hth => ?_⟩
    simp only [Curry.PartialApp.call, hm]
    rw [if_pos hth]

/-- Witness for the amended C4 at concrete inputs: re-supplying name 0
raises; supplying the fresh name 1 next to the accumulated name 0
reaches the threshold and invokes the target on both named values. -/
theorem c4_amended_duplicate_name_raises_witness :
    Curry.PartialApp.call ⟨3, Curry.gFn, [], [(0, 1)]⟩ [] [(0, 2)] = none ∧
    Curry.dictMerge [((0 : Nat), (1 : Nat))] [(1, 2)] = some [(0, 1), (1, 2)] ∧
    Curry.PartialApp.call ⟨2, Curry.gFn, [], [(0, 1)]⟩ [] [(1, 2)] =
      some (.done 0) :=
  ⟨(c4_amended_duplicate_name_raises Nat Nat ⟨3, Curry.gFn, [], [(0, 1)]⟩ [] [(0, 2)]).1
      (by decide),
   ((c4_amended_duplicate_name_raises Nat Nat ⟨2, Curry.gFn, [], [(0, 1)]⟩ [] [(1, 2)]).2
      (by decide)).1,
   ((c4_amended_duplicate_name_raises Nat Nat ⟨2, Curry.gFn, [], [(0, 1)]⟩ [] [(1, 2)]).2
      (by decide)).2 (by decide)⟩

/-- C7: the object-based accumulator of src/curry.py (class Partial)
and the closure-based one (curry_functional) are behaviorally
equivalent: started from corresponding states — and in particular from
the freshly wrapped target, where both hold no positional and no named
arguments — every sequence of calls produces the same outcome, where a
further object accumulator corresponds to the closure capturing the
same accumulated positional list and named mapping, a final result
corresponds to the same final result, and a raised merge error to the
same raised error. -/
theorem c7_object_closure_equivalence (V R : Type) (num_args : Nat)
    (fn : List V → Curry.KW Nat V → R) (packs : List (List V × Curry.KW Nat V)) :
    (∀ (args : List V) (kwargs : Curry.KW Nat V),
      (Curry.runCallsP ⟨num_args, fn, args, kwargs⟩ packs).map Curry.pToF =
        Curry.runCallsF num_args fn args kwargs packs) ∧
    (Curry.runCallsP (Curry.curry num_args fn) packs).map Curry.pToF =
      Curry.runCallsF num_args fn (Curry.curry_functional num_args fn).1
        (Curry.curry_functional num_args fn).2 packs :=
  ⟨fun args kwargs => Curry.runCalls_object_closure packs ⟨num_args, fn, args, kwargs⟩,
   Curry.runCalls_object_closure packs (Curry.curry num_args fn)⟩

/-- C8 counterexample: with threshold 0 — an allowed threshold value —
the initial accumulator returned by wrapping the target is a
non-terminal returned accumulator whose accumulated total, 0, is not
strictly below the threshold. -/
theorem c8_counterexample :
    ¬ ((Curry.curry 0 Curry.gFn : Curry.PartialApp Nat Nat Nat).args.length +
        (Curry.curry 0 Curry.gFn : Curry.PartialApp Nat Nat Nat).kwargs.length <
        (Curry.curry 0 Curry.gFn : Curry.PartialApp Nat Nat Nat).num_args) := by
  decide

/-- C8 amended: every accumulator produced and returned by a call
satisfies the invariant that its accumulated total is strictly below
its threshold, for every threshold; the initial accumulator produced
by wrapping the target satisfies the invariant whenever the threshold
is at least 1 (at threshold 0 it is the one violation); and whenever
the total reaches or exceeds the threshold the call invokes the target
on the full accumulated argument set and returns its result instead of
an accumulator. -/
theorem c8_amended_invariant (V R : Type) :
    (∀ (N : Nat) (fn : List V → Curry.KW Nat V → R), 1 ≤ N →
      (Curry.curry N fn : Curry.PartialApp Nat V R).args.length +
        (Curry.curry N fn : Curry.PartialApp Nat V R).kwargs.length < N) ∧
    (∀ (p : Curry.PartialApp Nat V R) (ma : List V) (mk : Curry.KW Nat V)
        (q : Curry.PartialApp Nat V R),
      p.call ma mk = some (.cont q) →
      q.args.length + q.kwargs.length < q.num_args) ∧
    (∀ (p : Curry.PartialApp Nat V R) (ma : List V) (mk allk : Curry.KW Nat V),
      Curry.dictMerge p.kwargs mk = some allk →
      p.num_args ≤ (p.args ++ ma).length + allk.length →
      p.call ma mk = some (.done (p.fn (p.args ++ ma) allk))) := by
  refine ⟨?_, ?_, ?_⟩
  · intro N fn hN
    show 0 + 0 < N
    omega
  · intro p ma mk q h
    exact (Curry.call_cont_state p ma mk q h).2.2.2
  · intro p ma mk allk hm hth
    simp only [Curry.PartialApp.call, hm]
    rw [if_pos hth]

/-- Witness for the amended C8 at concrete inputs: the fresh
accumulator at threshold 3 satisfies the invariant, a call-produced
accumulator satisfies it, and a threshold-reaching call invokes the
target. -/
theorem c8_amended_invariant_witness :
    ((1 : Nat) ≤ 3 ∧
      (Curry.curry 3 Curry.gFn : Curry.PartialApp Nat Nat Nat).args.length +
        (Curry.curry 3 Curry.gFn : Curry.PartialApp Nat Nat Nat).kwargs.length < 3) ∧
    ((⟨3, Curry.gFn, [1], []⟩ : Curry.PartialApp Nat Nat Nat).args.length +
        (⟨3, Curry.gFn, [1], []⟩ : Curry.PartialApp Nat Nat Nat).kwargs.length <
        (⟨3, Curry.gFn, [1], []⟩ : Curry.PartialApp Nat Nat Nat).num_args) ∧
    Curry.PartialApp.call ⟨3, Curry.gFn, [1, 2], []⟩ [3] [] = some (.done 0) :=
  ⟨⟨by decide, (c8_amended_invariant Nat Nat).1 3 Curry.gFn (by decide)⟩,
   (c8_amended_invariant Nat Nat).2.1 (Curry.curry 3 Curry.gFn) [1] []
      ⟨3, Curry.gFn, [1], []⟩ rfl,
   (c8_amended_invariant Nat Nat).2.2 ⟨3, Curry.gFn, [1, 2], []⟩ [3] [] [] rfl
      (by decide)⟩

/-- C9: a call on an accumulator builds its result from the saved state
and the new arguments alone and returns a fresh accumulator, leaving
the callee unchanged — in the embedding the callee is a pure value, so
the same base can be given two different continuations with
independent correct results: from `base = curry(add)(1)`, both
`base(2, 3) = 1 + 2 + 3` and `base(5, 6) = 1 + 5 + 6` hold together,
and concretely give 6 and 12. -/
theorem c9_immutable_reuse (a b c d e : Nat) :
    Curry.PartialApp.call (Curry.curry 3 Curry.addFn) [a] [] =
      some (.cont ⟨3, Curry.addFn, [a], []⟩) ∧
    Curry.PartialApp.call ⟨3, Curry.addFn, [a], []⟩ [b, c] [] =
      some (.done (a + b + c)) ∧
    Curry.PartialApp.call ⟨3, Curry.addFn, [a], []⟩ [d, e] [] =
      some (.done (a + d + e)) ∧
    Curry.runCallsP (Curry.curry 3 Curry.addFn) [([1], []), ([2, 3], [])] =
      some (.done 6) ∧
    Curry.runCallsP (Curry.curry 3 Curry.addFn) [([1], []), ([5, 6], [])] =
      some (.done 12) :=
  ⟨rfl, rfl, rfl, rfl, rfl⟩

/-- C10: calling an accumulator that is strictly below its threshold
with no positional and no named arguments never invokes the target and
returns an accumulator equal to the original — same threshold, same
target, same accumulated positional and named arguments. -/
theorem c10_zero_arg_identity (V R : Type) (p : Curry.PartialApp Nat V R)
    (h : p.args.length + p.kwargs.length < p.num_args) :
    p.call [] [] = some (.cont p) := by
  have hm : Curry.dictMerge p.kwargs ([] : Curry.KW Nat V) = some p.kwargs := by
    unfold Curry.dictMerge
    simp [Curry.keys]
  simp only [Curry.PartialApp.call, hm]
  rw [if_neg (by simp only [List.append_nil, List.length_append, List.length_nil]; omega)]
  simp

/-- Witness for C10 at a concrete input: an accumulator holding one of
two required arguments is returned unchanged by a zero-argument
call. -/
theorem c10_zero_arg_identity_witness :
    ((1 : Nat) + 0 < 2) ∧
    Curry.PartialApp.call ⟨2, Curry.gFn, [7], []⟩ [] [] =
      some (.cont ⟨2, Curry.gFn, [7], []⟩) :=
  ⟨by decide, c10_zero_arg_identity Nat Nat ⟨2, Curry.gFn, [7], []⟩ (by decide)⟩
